import Mathlib

/-!
Shallow embedding of the image-to-base64 utilities of this repository
(`src/convert_to_base64.py` and `src/openrouter-image-python.py`).

Strings are modelled as `List Char`, byte sequences as `List Nat`
(each element below 256).  The file system is modelled as a function
`List Char → Option (List Nat)` giving the bytes a path reads to, with
`none` meaning the path does not resolve to a readable resource.
-/

/-- The standard base64 alphabet, as used by Python's `base64.b64encode`
(RFC 4648 table, characters 0–63). -/
def b64Table : List Char :=
  "ABCDEFGHIJKLMNOPQRSTUVWXYZabcdefghijklmnopqrstuvwxyz0123456789+/".toList

/-- Character for a 6-bit group (index into the base64 alphabet). -/
def b64Char (n : Nat) : Char := b64Table.getD n 'A'

/-- Embedding of Python's `base64.b64encode(data).decode('utf-8')`:
process the byte list in chunks of three, emitting four alphabet
characters per full chunk and `=`-padding a trailing chunk of one or
two bytes.  No line wrapping is performed. -/
def b64encodeList : List Nat → List Char
  | [] => []
  | [b0] =>
      [b64Char (b0 / 4), b64Char (b0 % 4 * 16), '=', '=']
  | [b0, b1] =>
      [b64Char (b0 / 4), b64Char (b0 % 4 * 16 + b1 / 16),
       b64Char (b1 % 16 * 4), '=']
  | b0 :: b1 :: b2 :: rest =>
      b64Char (b0 / 4) :: b64Char (b0 % 4 * 16 + b1 / 16) ::
      b64Char (b1 % 16 * 4 + b2 / 64) :: b64Char (b2 % 64) ::
      b64encodeList rest

/-- Index of the first occurrence of a character in a list, if any. -/
def findIdx6 (c : Char) : List Char → Option Nat
  | [] => none
  | d :: rest => if d = c then some 0 else (findIdx6 c rest).map (· + 1)

/-- Value of a base64 alphabet character (`none` for characters outside
the 64-character alphabet, in particular for `=`). -/
def b64Val (c : Char) : Option Nat := findIdx6 c b64Table

/-- Modelled from the spec: "a standard base64 decoder" (the repository
itself contains no decoder).  RFC 4648 decoding: four characters at a
time, with `=`-padding allowed only in the final quadruple; any
character outside the alphabet, or a length not a multiple of four,
is rejected. -/
def b64decodeList : List Char → Option (List Nat)
  | [] => some []
  | c0 :: c1 :: c2 :: c3 :: rest =>
      (b64Val c0).bind fun v0 =>
      (b64Val c1).bind fun v1 =>
      if c2 = '=' then
        if c3 = '=' ∧ rest = [] then some [v0 * 4 + v1 / 16] else none
      else
        (b64Val c2).bind fun v2 =>
        if c3 = '=' then
          if rest = [] then
            some [v0 * 4 + v1 / 16, v1 % 16 * 16 + v2 / 4]
          else none
        else
          (b64Val c3).bind fun v3 =>
          (b64decodeList rest).map fun ds =>
            (v0 * 4 + v1 / 16) :: (v1 % 16 * 16 + v2 / 4) ::
            (v2 % 4 * 64 + v3) :: ds
  | _ => none


/-- ASCII-letter lowercasing of one character, the fragment of Python's
`str.lower` exercised by file-name suffixes. -/
def lowerChar (c : Char) : Char :=
  if 65 ≤ c.toNat ∧ c.toNat ≤ 90 then Char.ofNat (c.toNat + 32) else c

/-- Lowercasing of a whole string (`str.lower`, ASCII fragment). -/
def toLowerList (s : List Char) : List Char := s.map lowerChar

/-- Embedding of Python's `str.rfind` for a single character: index of
the last occurrence, `-1` when absent. -/
def rfind (c : Char) : List Char → Int
  | [] => -1
  | d :: rest =>
      let r := rfind c rest
      if 0 ≤ r then r + 1 else if d = c then 0 else -1

/-- Whether some position `i` with `lo ≤ i < hi` holds a character other
than a dot (the skip-leading-dots loop of `posixpath.splitext`). -/
def anyNonDot (p : List Char) (lo hi : Nat) : Bool :=
  ((p.drop lo).take (hi - lo)).any fun ch => ch ≠ '.'

/-- Embedding of `os.path.splitext(p)[1]` (POSIX rules): the extension
is the part of `p` from its last dot onwards, provided that dot lies
strictly after the last `/` and is preceded (within the base name) by at
least one non-dot character; otherwise the extension is empty. -/
def splitextExt (p : List Char) : List Char :=
  let sepIndex := rfind '/' p
  let dotIndex := rfind '.' p
  if sepIndex < dotIndex ∧ anyNonDot p (sepIndex + 1).toNat dotIndex.toNat
  then p.drop dotIndex.toNat else []

/-- Embedding of the literal suffix→media-type dictionary of
`convert_image_to_base64`, with `.get`'s fallback
`'application/octet-stream'`. -/
def mimeFromExt (e : List Char) : List Char :=
  if e = ".png".toList then "image/png".toList
  else if e = ".jpg".toList then "image/jpeg".toList
  else if e = ".jpeg".toList then "image/jpeg".toList
  else if e = ".gif".toList then "image/gif".toList
  else if e = ".webp".toList then "image/webp".toList
  else if e = ".bmp".toList then "image/bmp".toList
  else "application/octet-stream".toList

/-- Media type chosen by `convert_image_to_base64` for a path:
`mime_type = {...}.get(os.path.splitext(image_path)[1].lower(), 'application/octet-stream')`. -/
def mimeOfPath (p : List Char) : List Char :=
  mimeFromExt (toLowerList (splitextExt p))

/-- The data URI `f"data:{mime_type};base64,{base64_data}"`. -/
def dataUri (mime payload : List Char) : List Char :=
  "data:".toList ++ mime ++ ";base64,".toList ++ payload

/-- Embedding of `convert_image_to_base64` of `src/convert_to_base64.py`.
`read` models opening the path in binary mode and reading all bytes;
`none` models the raised exception (file absent or unreadable), in which
case the Python function prints the error and returns `None`. -/
def convert_image_to_base64 (read : List Char → Option (List Nat))
    (path : List Char) : Option (List Char) :=
  (read path).map fun data => dataUri (mimeOfPath path) (b64encodeList data)

/-- Modelled from the Python standard library's default
`mimetypes.types_map` (a representative subset including every suffix the
repository's fixed table knows, plus common non-image suffixes), as used
by `mimetypes.guess_type` in `src/openrouter-image-python.py`. -/
def mimetypesTable : List (List Char × List Char) :=
  [(".png".toList, "image/png".toList),
   (".jpg".toList, "image/jpeg".toList),
   (".jpeg".toList, "image/jpeg".toList),
   (".gif".toList, "image/gif".toList),
   (".webp".toList, "image/webp".toList),
   (".bmp".toList, "image/bmp".toList),
   (".txt".toList, "text/plain".toList),
   (".html".toList, "text/html".toList),
   (".htm".toList, "text/html".toList),
   (".css".toList, "text/css".toList),
   (".csv".toList, "text/csv".toList),
   (".json".toList, "application/json".toList),
   (".pdf".toList, "application/pdf".toList),
   (".xml".toList, "text/xml".toList),
   (".zip".toList, "application/zip".toList),
   (".tar".toList, "application/x-tar".toList),
   (".mp3".toList, "audio/mpeg".toList),
   (".mp4".toList, "video/mp4".toList),
   (".avi".toList, "video/x-msvideo".toList),
   (".tiff".toList, "image/tiff".toList),
   (".tif".toList, "image/tiff".toList),
   (".ico".toList, "image/vnd.microsoft.icon".toList),
   (".svg".toList, "image/svg+xml".toList),
   (".doc".toList, "application/msword".toList),
   (".bin".toList, "application/octet-stream".toList),
   (".ps".toList, "application/postscript".toList),
   (".sh".toList, "application/x-sh".toList),
   (".py".toList, "text/x-python".toList),
   (".c".toList, "text/x-csrc".toList),
   (".wav".toList, "audio/x-wav".toList)]

/-- Lookup in an association list of strings. -/
def assocLookup (k : List Char) : List (List Char × List Char) → Option (List Char)
  | [] => none
  | (k2, v) :: rest => if k = k2 then some v else assocLookup k rest

/-- Modelled from the Python standard library's `mimetypes.guess_type`,
restricted to plain file paths (no URL scheme, no `.gz`/`.Z` encoding
suffix): the path's extension is taken by `posixpath.splitext`, lowered,
and looked up in the mime-types table; `none` when unknown. -/
def guess_type (path : List Char) : Option (List Char) :=
  assocLookup (toLowerList (splitextExt path)) mimetypesTable

/-- Embedding of `image_to_base64` of `src/openrouter-image-python.py`:
the media type comes from `mimetypes.guess_type`, falling back to
`application/octet-stream` when no type is guessed; the payload is the
same `base64.b64encode` of the file's bytes.  On a read error the Python
function re-raises, producing no result (`none`). -/
def image_to_base64 (read : List Char → Option (List Nat))
    (path : List Char) : Option (List Char) :=
  (read path).map fun data =>
    dataUri ((guess_type path).getD "application/octet-stream".toList)
      (b64encodeList data)


/-- Model of the file system and process environment seen by `main` of
`src/convert_to_base64.py`: `pathExists` models `Path(p).exists()`,
`read` models opening `p` for binary reading (`none` = raises), and
`writeOk` models whether opening `p` for writing and writing succeeds. -/
structure FS where
  pathExists : List Char → Bool
  read : List Char → Option (List Nat)
  writeOk : List Char → Bool

/-- Observable effect of one run of the CLI: the data URI written to the
output file, or the console output (truncated preview plus total
length), or nothing on the failure paths. -/
inductive MainEffect where
  | wroteFile (path content : List Char)
  | console (preview : List Char) (total : Nat)
  | noOutput
deriving DecidableEq

/-- Console preview printed by `main`:
`base64_data[:100] + "..." if len(base64_data) > 100 else base64_data`. -/
def previewOf (u : List Char) : List Char :=
  if 100 < u.length then u.take 100 ++ "...".toList else u

/-- Embedding of `main` of `src/convert_to_base64.py` after successful
argument parsing: check `Path(image_path).exists()`, convert, check the
string's truthiness (`if not base64_data: return 1`), then either save
to the output file or print the preview and total length.  Returns the
exit status (the value passed to `sys.exit`) and the observable effect.
Informational prints (error messages, the sample JSON snippet) are not
modelled. -/
def cliMain (fs : FS) (imagePath : List Char) (output : Option (List Char)) :
    Nat × MainEffect :=
  if fs.pathExists imagePath = false then (1, .noOutput)
  else
    match convert_image_to_base64 fs.read imagePath with
    | none => (1, .noOutput)
    | some base64_data =>
        if base64_data = [] then (1, .noOutput)
        else
          match output with
          | some out =>
              if fs.writeOk out then (0, .wroteFile out base64_data)
              else (1, .noOutput)
          | none => (0, .console (previewOf base64_data) base64_data.length)

/-- Number of start positions at which `pat` occurs as a contiguous
substring of `s` (for nonempty `pat`). -/
def countOcc (pat : List Char) : List Char → Nat
  | [] => 0
  | c :: rest =>
      (if pat.isPrefixOf (c :: rest) then 1 else 0) + countOcc pat rest

/-- The text after the first occurrence of the substring `pat`, if any. -/
def afterSubstr (pat : List Char) : List Char → Option (List Char)
  | [] => none
  | c :: rest =>
      if pat.isPrefixOf (c :: rest) then some ((c :: rest).drop pat.length)
      else afterSubstr pat rest

example : b64encodeList [77, 97, 110] = "TWFu".toList := by decide
example : b64encodeList [77, 97] = "TWE=".toList := by decide
example : b64encodeList [77] = "TQ==".toList := by decide
example : b64decodeList ("TWFu".toList) = some [77, 97, 110] := by decide
example : b64decodeList ("TQ==".toList) = some [77] := by decide
example : mimeOfPath "photo.JPG".toList = "image/jpeg".toList := by decide
example : mimeOfPath "archive.bin".toList = "application/octet-stream".toList := by decide
example : mimeOfPath ".png".toList = "application/octet-stream".toList := by decide
example : mimeOfPath "a/b.c/d".toList = "application/octet-stream".toList := by decide
example : mimeOfPath "dir.png/file".toList = "application/octet-stream".toList := by decide
example : guess_type "file.txt".toList = some ("text/plain".toList) := by decide
example : countOcc ";base64,".toList ("data:image/png;base64,iVBO".toList) = 1 := by decide
example : afterSubstr ";base64,".toList ("data:image/png;base64,iVBO".toList) = some ("iVBO".toList) := by decide


lemma getD_mem_or_eq : ∀ (l : List Char) (n : Nat) (d : Char),
    l.getD n d ∈ l ∨ l.getD n d = d
  | [], _, _ => Or.inr rfl
  | _ :: _, 0, _ => Or.inl (List.mem_cons_self _ _)
  | _ :: rest, n + 1, d =>
      match getD_mem_or_eq rest n d with
      | Or.inl h => Or.inl (List.mem_cons_of_mem _ h)
      | Or.inr h => Or.inr h

lemma b64Char_mem (n : Nat) : b64Char n ∈ b64Table := by
  rcases getD_mem_or_eq b64Table n 'A' with h | h
  · exact h
  · rw [b64Char, h]; decide

lemma b64Char_ne_pad (n : Nat) : b64Char n ≠ '=' := by
  have h := b64Char_mem n
  intro he
  rw [he] at h
  revert h; decide

lemma b64Val_b64Char_fin : ∀ n : Fin 64, b64Val (b64Char n.val) = some n.val := by
  decide

lemma b64Val_b64Char {n : Nat} (h : n < 64) : b64Val (b64Char n) = some n :=
  b64Val_b64Char_fin ⟨n, h⟩

theorem b64_round_trip : ∀ bs : List Nat, (∀ b ∈ bs, b < 256) →
    b64decodeList (b64encodeList bs) = some bs
  | [], _ => rfl
  | [b0], h => by
      have hb0 : b0 < 256 := h b0 (by simp)
      have h0 := b64Val_b64Char (n := b0 / 4) (by omega)
      have h1 := b64Val_b64Char (n := b0 % 4 * 16) (by omega)
      simp [b64encodeList, b64decodeList, h0, h1]
      omega
  | [b0, b1], h => by
      have hb0 : b0 < 256 := h b0 (by simp)
      have hb1 : b1 < 256 := h b1 (by simp)
      have h0 := b64Val_b64Char (n := b0 / 4) (by omega)
      have h1 := b64Val_b64Char (n := b0 % 4 * 16 + b1 / 16) (by omega)
      have h2 := b64Val_b64Char (n := b1 % 16 * 4) (by omega)
      have h2ne := b64Char_ne_pad (b1 % 16 * 4)
      simp [b64encodeList, b64decodeList, h0, h1, h2, h2ne]
      omega
  | b0 :: b1 :: b2 :: rest, h => by
      have ih := b64_round_trip rest (fun b hb => h b (by simp [hb]))
      have hb0 : b0 < 256 := h b0 (by simp)
      have hb1 : b1 < 256 := h b1 (by simp)
      have hb2 : b2 < 256 := h b2 (by simp)
      have h0 := b64Val_b64Char (n := b0 / 4) (by omega)
      have h1 := b64Val_b64Char (n := b0 % 4 * 16 + b1 / 16) (by omega)
      have h2 := b64Val_b64Char (n := b1 % 16 * 4 + b2 / 64) (by omega)
      have h3 := b64Val_b64Char (n := b2 % 64) (by omega)
      have h2ne := b64Char_ne_pad (b1 % 16 * 4 + b2 / 64)
      have h3ne := b64Char_ne_pad (b2 % 64)
      simp [b64encodeList, b64decodeList, h0, h1, h2, h3, h2ne, h3ne, ih]
      refine ⟨by omega, by omega, by omega⟩

lemma mem_b64encode : ∀ (bs : List Nat) (c : Char), c ∈ b64encodeList bs →
    c ∈ b64Table ∨ c = '='
  | [], _, h => by simp [b64encodeList] at h
  | [b0], c, h => by
      simp [b64encodeList] at h
      rcases h with h | h | h
      · exact Or.inl (h ▸ b64Char_mem _)
      · exact Or.inl (h ▸ b64Char_mem _)
      · exact Or.inr h
  | [b0, b1], c, h => by
      simp [b64encodeList] at h
      rcases h with h | h | h | h
      · exact Or.inl (h ▸ b64Char_mem _)
      · exact Or.inl (h ▸ b64Char_mem _)
      · exact Or.inl (h ▸ b64Char_mem _)
      · exact Or.inr h
  | b0 :: b1 :: b2 :: rest, c, h => by
      simp only [b64encodeList, List.mem_cons] at h
      rcases h with h | h | h | h | h
      · exact Or.inl (h ▸ b64Char_mem _)
      · exact Or.inl (h ▸ b64Char_mem _)
      · exact Or.inl (h ▸ b64Char_mem _)
      · exact Or.inl (h ▸ b64Char_mem _)
      · exact mem_b64encode rest c h

lemma semi_not_mem_b64encode (bs : List Nat) : ';' ∉ b64encodeList bs := by
  intro h
  rcases mem_b64encode bs ';' h with h2 | h2
  · revert h2; decide
  · exact absurd h2 (by decide)

lemma newline_not_mem_b64encode (bs : List Nat) : '\n' ∉ b64encodeList bs := by
  intro h
  rcases mem_b64encode bs '\n' h with h2 | h2
  · revert h2; decide
  · exact absurd h2 (by decide)

lemma b64encode_length : ∀ bs : List Nat,
    (b64encodeList bs).length = 4 * ((bs.length + 2) / 3)
  | [] => rfl
  | [b0] => by simp [b64encodeList]
  | [b0, b1] => by simp [b64encodeList]
  | b0 :: b1 :: b2 :: rest => by
      have ih := b64encode_length rest
      simp only [b64encodeList, List.length_cons] at ih ⊢
      omega

lemma isPrefixOf_append_self : ∀ (l t : List Char), l.isPrefixOf (l ++ t) = true
  | [], _ => by simp [List.isPrefixOf]
  | c :: rest, t => by
      simp [List.isPrefixOf, isPrefixOf_append_self rest t]

lemma countOcc_no_semi (tl : List Char) :
    ∀ s : List Char, ';' ∉ s → countOcc (';' :: tl) s = 0
  | [], _ => rfl
  | c :: rest, h => by
      have hc : ¬ (';' = c) := fun he => h (by simp [he.symm])
      have hr := countOcc_no_semi tl rest (fun hm => h (List.mem_cons_of_mem _ hm))
      simp [countOcc, List.isPrefixOf, hc, hr]

lemma countOcc_append_no_semi (tl t : List Char) :
    ∀ s : List Char, ';' ∉ s → countOcc (';' :: tl) (s ++ t) = countOcc (';' :: tl) t
  | [], _ => rfl
  | c :: rest, h => by
      have hc : ¬ (';' = c) := fun he => h (by simp [he.symm])
      have hr := countOcc_append_no_semi tl t rest (fun hm => h (List.mem_cons_of_mem _ hm))
      simp [countOcc, List.isPrefixOf, hc, hr]

lemma afterSubstr_append_no_semi (tl t : List Char) :
    ∀ s : List Char, ';' ∉ s →
      afterSubstr (';' :: tl) (s ++ t) = afterSubstr (';' :: tl) t
  | [], _ => rfl
  | c :: rest, h => by
      have hc : ¬ (';' = c) := fun he => h (by simp [he.symm])
      have hr := afterSubstr_append_no_semi tl t rest (fun hm => h (List.mem_cons_of_mem _ hm))
      simp [afterSubstr, List.isPrefixOf, hc, hr]

lemma drop_length_append : ∀ (l t : List Char), (l ++ t).drop l.length = t
  | [], _ => rfl
  | _ :: rest, t => drop_length_append rest t

lemma afterSubstr_cons_self (tl t : List Char) :
    afterSubstr (';' :: tl) ((';' :: tl) ++ t) = some t := by
  rw [List.cons_append, afterSubstr]
  rw [← List.cons_append, isPrefixOf_append_self]
  simp [drop_length_append]

lemma countOcc_cons_self (tl t : List Char) (h : ';' ∉ tl) (ht : ';' ∉ t) :
    countOcc (';' :: tl) ((';' :: tl) ++ t) = 1 := by
  rw [List.cons_append, countOcc]
  rw [← List.cons_append, isPrefixOf_append_self]
  simp [countOcc_append_no_semi tl t tl h, countOcc_no_semi tl t ht]

lemma sep_eq : ";base64,".toList = ';' :: "base64,".toList := by decide

lemma countOcc_dataUri (mime payload : List Char)
    (hm : ';' ∉ mime) (hp : ';' ∉ payload) :
    countOcc (";base64,".toList) (dataUri mime payload) = 1 := by
  rw [dataUri, sep_eq]
  simp only [List.append_assoc]
  rw [countOcc_append_no_semi "base64,".toList
        (mime ++ ((';' :: "base64,".toList) ++ payload)) "data:".toList (by decide)]
  rw [countOcc_append_no_semi "base64,".toList
        ((';' :: "base64,".toList) ++ payload) mime hm]
  exact countOcc_cons_self _ _ (by decide) hp

lemma afterSubstr_dataUri (mime payload : List Char) (hm : ';' ∉ mime) :
    afterSubstr (";base64,".toList) (dataUri mime payload) = some payload := by
  rw [dataUri, sep_eq]
  simp only [List.append_assoc]
  rw [afterSubstr_append_no_semi "base64,".toList
        (mime ++ ((';' :: "base64,".toList) ++ payload)) "data:".toList (by decide)]
  rw [afterSubstr_append_no_semi "base64,".toList
        ((';' :: "base64,".toList) ++ payload) mime hm]
  exact afterSubstr_cons_self _ _

lemma semi_not_mem_mimeFromExt (e : List Char) : ';' ∉ mimeFromExt e := by
  rw [mimeFromExt]
  split_ifs <;> decide

lemma assocLookup_mem : ∀ (l : List (List Char × List Char)) (k v : List Char),
    assocLookup k l = some v → ∃ kk, (kk, v) ∈ l
  | [], _, _, h => by simp [assocLookup] at h
  | (k2, v2) :: rest, k, v, h => by
      rw [assocLookup] at h
      by_cases he : k = k2
      · rw [if_pos he] at h
        obtain rfl : v2 = v := Option.some_inj.mp h
        exact ⟨k2, List.mem_cons_self _ _⟩
      · rw [if_neg he] at h
        obtain ⟨kk, hkk⟩ := assocLookup_mem rest k v h
        exact ⟨kk, List.mem_cons_of_mem _ hkk⟩

lemma semi_not_mem_guessMime (path : List Char) :
    ';' ∉ (guess_type path).getD "application/octet-stream".toList := by
  rcases hg : guess_type path with _ | v
  · simp only [Option.getD_none]
    decide
  · simp only [Option.getD_some]
    obtain ⟨kk, hkk⟩ := assocLookup_mem _ _ _ hg
    have hall : ∀ pr ∈ mimetypesTable, ';' ∉ pr.2 := by decide
    exact hall (kk, v) hkk

lemma toNat_ofNat_valid (n : Nat) (h : n < 55296) : (Char.ofNat n).toNat = n := by
  rw [Char.ofNat]
  rw [dif_pos (Or.inl h)]
  rfl

lemma lowerChar_eq_iff (c t : Char) (ht : t.toNat < 65) :
    lowerChar c = t ↔ c = t := by
  rw [lowerChar]
  by_cases h : 65 ≤ c.toNat ∧ c.toNat ≤ 90
  · rw [if_pos h]
    constructor
    · intro he
      exfalso
      have h2 : (Char.ofNat (c.toNat + 32)).toNat = t.toNat := by rw [he]
      rw [toNat_ofNat_valid _ (by omega)] at h2
      omega
    · intro he
      exfalso
      have : c.toNat = t.toNat := by rw [he]
      omega
  · rw [if_neg h]

lemma lowerChar_eq_dot_iff (c : Char) : lowerChar c = '.' ↔ c = '.' :=
  lowerChar_eq_iff c '.' (by decide)

lemma lowerChar_eq_slash_iff (c : Char) : lowerChar c = '/' ↔ c = '/' :=
  lowerChar_eq_iff c '/' (by decide)

lemma rfind_toLower (c : Char) (hc : ∀ d, lowerChar d = c ↔ d = c) :
    ∀ s : List Char, rfind c (toLowerList s) = rfind c s
  | [] => rfl
  | d :: rest => by
      have ih := rfind_toLower c hc rest
      simp only [toLowerList, List.map_cons] at ih ⊢
      rw [rfind, rfind, ih]
      by_cases h : (0 : Int) ≤ rfind c rest
      · simp [h]
      · simp only [h, if_false]
        by_cases hd : d = c
        · rw [if_pos ((hc d).mpr hd), if_pos hd]
        · rw [if_neg (fun he => hd ((hc d).mp he)), if_neg hd]

lemma anyNonDot_toLower (p : List Char) (lo hi : Nat) :
    anyNonDot (toLowerList p) lo hi = anyNonDot p lo hi := by
  rw [anyNonDot, anyNonDot, toLowerList]
  rw [← List.map_drop, ← List.map_take, List.any_map]
  congr 1
  funext ch
  simp [Function.comp, lowerChar_eq_dot_iff]

lemma toLower_splitext (p q : List Char) (h : toLowerList p = toLowerList q) :
    toLowerList (splitextExt p) = toLowerList (splitextExt q) := by
  have hdot : rfind '.' p = rfind '.' q := by
    rw [← rfind_toLower '.' lowerChar_eq_dot_iff p, h,
        rfind_toLower '.' lowerChar_eq_dot_iff q]
  have hsep : rfind '/' p = rfind '/' q := by
    rw [← rfind_toLower '/' lowerChar_eq_slash_iff p, h,
        rfind_toLower '/' lowerChar_eq_slash_iff q]
  have hany : ∀ lo hi, anyNonDot p lo hi = anyNonDot q lo hi := by
    intro lo hi
    rw [← anyNonDot_toLower p lo hi, h, anyNonDot_toLower q lo hi]
  rw [splitextExt, splitextExt, ← hdot, ← hsep, ← hany]
  by_cases hc : rfind '/' p < rfind '.' p ∧
      anyNonDot p ((rfind '/' p) + 1).toNat (rfind '.' p).toNat
  · rw [if_pos hc, if_pos hc]
    rw [toLowerList, toLowerList, List.map_drop, List.map_drop]
    rw [toLowerList, toLowerList] at h
    rw [h]
  · rw [if_neg hc, if_neg hc]

lemma convert_some_shape (read : List Char → Option (List Nat))
    (path u : List Char) (hu : convert_image_to_base64 read path = some u) :
    ∃ bytes, read path = some bytes ∧
      u = dataUri (mimeOfPath path) (b64encodeList bytes) := by
  rcases hr : read path with _ | bytes
  · rw [convert_image_to_base64, hr] at hu
    exact absurd hu (by simp)
  · rw [convert_image_to_base64, hr] at hu
    exact ⟨bytes, rfl, (Option.some_inj.mp hu).symm⟩

lemma image_some_shape (read : List Char → Option (List Nat))
    (path u : List Char) (hu : image_to_base64 read path = some u) :
    ∃ bytes, read path = some bytes ∧
      u = dataUri ((guess_type path).getD "application/octet-stream".toList)
            (b64encodeList bytes) := by
  rcases hr : read path with _ | bytes
  · rw [image_to_base64, hr] at hu
    exact absurd hu (by simp)
  · rw [image_to_base64, hr] at hu
    exact ⟨bytes, rfl, (Option.some_inj.mp hu).symm⟩

lemma dataUri_eq_append (mime payload : List Char) :
    dataUri mime payload =
      "data:".toList ++ (mime ++ ((';' :: "base64,".toList) ++ payload)) := by
  rw [dataUri, sep_eq]
  simp [List.append_assoc]

lemma dataUri_ne_nil (mime payload : List Char) : dataUri mime payload ≠ [] := by
  rw [dataUri_eq_append]
  simp

/-- C1: for every byte sequence `b`, decoding (with a standard base64
decoder) the payload portion of the uri returned by
`convert_image_to_base64` / `image_to_base64` — the text after the
`";base64,"` separator — yields exactly `b`. -/
theorem C1_base64_round_trip (read : List Char → Option (List Nat))
    (path bytes : _) (hr : read path = some bytes)
    (hb : ∀ b ∈ bytes, b < 256) :
    ∃ u, convert_image_to_base64 read path = some u ∧
      afterSubstr (";base64,".toList) u = some (b64encodeList bytes) ∧
      b64decodeList (b64encodeList bytes) = some bytes ∧
      ∃ u2, image_to_base64 read path = some u2 ∧
        afterSubstr (";base64,".toList) u2 = some (b64encodeList bytes) := by
  refine ⟨dataUri (mimeOfPath path) (b64encodeList bytes), ?_, ?_, ?_, ?_⟩
  · rw [convert_image_to_base64, hr]
    rfl
  · exact afterSubstr_dataUri _ _ (semi_not_mem_mimeFromExt _)
  · exact b64_round_trip bytes hb
  · refine ⟨_, ?_, afterSubstr_dataUri _ _ (semi_not_mem_guessMime path)⟩
    rw [image_to_base64, hr]
    rfl

/-- C1 witness: concrete instantiation at a two-byte JPEG-like file. -/
theorem C1_base64_round_trip_witness :
    ∃ u, convert_image_to_base64 (fun _ => some [255, 216])
        ("photo.jpg".toList) = some u ∧
      afterSubstr (";base64,".toList) u = some (b64encodeList [255, 216]) ∧
      b64decodeList (b64encodeList [255, 216]) = some [255, 216] ∧
      ∃ u2, image_to_base64 (fun _ => some [255, 216])
          ("photo.jpg".toList) = some u2 ∧
        afterSubstr (";base64,".toList) u2 = some (b64encodeList [255, 216]) :=
  C1_base64_round_trip _ _ _ rfl (by decide)

/-- C2 counterexample: for the path `file.txt`, `image_to_base64` embeds
the media type `text/plain` (from the mimetypes table), whereas the fixed
table of the claim maps the suffix `.txt` to `application/octet-stream`;
so the claim as stated fails on `image_to_base64`. -/
theorem C2_counterexample :
    image_to_base64 (fun _ => some [0]) ("file.txt".toList) =
      some (dataUri ("text/plain".toList) (b64encodeList [0])) ∧
    mimeFromExt (toLowerList (splitextExt ("file.txt".toList))) =
      "application/octet-stream".toList ∧
    ("text/plain".toList : List Char) ≠ "application/octet-stream".toList := by
  refine ⟨?_, by decide, by decide⟩
  rfl

/-- C2 (amended): for `convert_image_to_base64` the media type embedded
in the result is determined solely by the path's lower-cased suffix via
the fixed table (`.png→image/png`, `.jpg`/`.jpeg→image/jpeg`,
`.gif→image/gif`, `.webp→image/webp`, `.bmp→image/bmp`, anything
else → `application/octet-stream`) and never depends on the content
bytes; `image_to_base64` instead derives its media type from the
platform mimetypes table — still from the path name only, never from
the content bytes — falling back to `application/octet-stream` when no
type is guessed. -/
theorem C2_media_type_from_suffix :
    (∀ read path bytes, read path = some bytes →
       convert_image_to_base64 read path =
         some (dataUri (mimeOfPath path) (b64encodeList bytes))) ∧
    mimeFromExt (".png".toList) = "image/png".toList ∧
    mimeFromExt (".jpg".toList) = "image/jpeg".toList ∧
    mimeFromExt (".jpeg".toList) = "image/jpeg".toList ∧
    mimeFromExt (".gif".toList) = "image/gif".toList ∧
    mimeFromExt (".webp".toList) = "image/webp".toList ∧
    mimeFromExt (".bmp".toList) = "image/bmp".toList ∧
    (∀ e, e ∉ [".png".toList, ".jpg".toList, ".jpeg".toList, ".gif".toList,
        ".webp".toList, ".bmp".toList] →
      mimeFromExt e = "application/octet-stream".toList) ∧
    (∀ read path bytes, read path = some bytes →
       image_to_base64 read path =
         some (dataUri
           ((guess_type path).getD "application/octet-stream".toList)
           (b64encodeList bytes))) := by
  refine ⟨?_, by decide, by decide, by decide, by decide, by decide, by decide,
    ?_, ?_⟩
  · intro read path bytes hr
    rw [convert_image_to_base64, hr]
    rfl
  · intro e he
    have h1 : e ≠ ".png".toList := fun h => he (by rw [h]; decide)
    have h2 : e ≠ ".jpg".toList := fun h => he (by rw [h]; decide)
    have h3 : e ≠ ".jpeg".toList := fun h => he (by rw [h]; decide)
    have h4 : e ≠ ".gif".toList := fun h => he (by rw [h]; decide)
    have h5 : e ≠ ".webp".toList := fun h => he (by rw [h]; decide)
    have h6 : e ≠ ".bmp".toList := fun h => he (by rw [h]; decide)
    rw [mimeFromExt, if_neg h1, if_neg h2, if_neg h3, if_neg h4, if_neg h5,
      if_neg h6]
  · intro read path bytes hr
    rw [image_to_base64, hr]
    rfl

/-- C2 witness: concrete instantiation at a `.png` file and at an
unknown suffix. -/
theorem C2_media_type_from_suffix_witness :
    convert_image_to_base64 (fun _ => some [1, 2, 3]) ("a.png".toList) =
      some (dataUri (mimeOfPath ("a.png".toList)) (b64encodeList [1, 2, 3])) ∧
    mimeFromExt (".xyz".toList) = "application/octet-stream".toList :=
  ⟨C2_media_type_from_suffix.1 _ _ _ rfl,
   C2_media_type_from_suffix.2.2.2.2.2.2.2.1 (".xyz".toList) (by decide)⟩

/-- C3: a path that does not resolve to a readable resource makes both
encoders fail with no result at all, and any result either encoder does
return is the complete data URI built from the file's actual bytes —
never a partial or corrupted value. -/
theorem C3_no_partial_result (read : List Char → Option (List Nat))
    (path : List Char) :
    (read path = none → convert_image_to_base64 read path = none) ∧
    (∀ u, convert_image_to_base64 read path = some u →
      ∃ bytes, read path = some bytes ∧
        u = dataUri (mimeOfPath path) (b64encodeList bytes)) ∧
    (read path = none → image_to_base64 read path = none) ∧
    (∀ u, image_to_base64 read path = some u →
      ∃ bytes, read path = some bytes ∧
        u = dataUri ((guess_type path).getD "application/octet-stream".toList)
              (b64encodeList bytes)) := by
  refine ⟨fun h => ?_, convert_some_shape read path, fun h => ?_,
    image_some_shape read path⟩
  · rw [convert_image_to_base64, h]
    rfl
  · rw [image_to_base64, h]
    rfl

/-- C3 witness: at an unreadable path both encoders return nothing. -/
theorem C3_no_partial_result_witness :
    convert_image_to_base64 (fun _ => none) ("/no/such/file.png".toList) = none ∧
    image_to_base64 (fun _ => none) ("/no/such/file.png".toList) = none :=
  ⟨(C3_no_partial_result _ _).1 rfl, (C3_no_partial_result _ _).2.2.1 rfl⟩

/-- C4: every uri either encoder returns starts with `data:` and
contains exactly one occurrence of the substring `";base64,"`. -/
theorem C4_uri_shape (read : List Char → Option (List Nat))
    (path : List Char) :
    (∀ u, convert_image_to_base64 read path = some u →
      "data:".toList.isPrefixOf u = true ∧
      countOcc (";base64,".toList) u = 1) ∧
    (∀ u, image_to_base64 read path = some u →
      "data:".toList.isPrefixOf u = true ∧
      countOcc (";base64,".toList) u = 1) := by
  constructor
  · intro u hu
    obtain ⟨bytes, -, rfl⟩ := convert_some_shape read path u hu
    constructor
    · rw [dataUri_eq_append]
      exact isPrefixOf_append_self _ _
    · exact countOcc_dataUri _ _ (semi_not_mem_mimeFromExt _)
        (semi_not_mem_b64encode _)
  · intro u hu
    obtain ⟨bytes, -, rfl⟩ := image_some_shape read path u hu
    constructor
    · rw [dataUri_eq_append]
      exact isPrefixOf_append_self _ _
    · exact countOcc_dataUri _ _ (semi_not_mem_guessMime path)
        (semi_not_mem_b64encode _)

/-- C4 witness: concrete uri shape for a one-byte `.gif` file. -/
theorem C4_uri_shape_witness :
    "data:".toList.isPrefixOf
      (dataUri (mimeOfPath ("x.gif".toList)) (b64encodeList [7])) = true ∧
    countOcc (";base64,".toList)
      (dataUri (mimeOfPath ("x.gif".toList)) (b64encodeList [7])) = 1 :=
  (C4_uri_shape (fun _ => some [7]) ("x.gif".toList)).1 _ rfl

lemma cliMain_not_exists (fs : FS) (ip : List Char) (outOpt : Option (List Char))
    (hpe : fs.pathExists ip = false) : cliMain fs ip outOpt = (1, .noOutput) := by
  rw [cliMain, if_pos hpe]

lemma cliMain_read_none (fs : FS) (ip : List Char) (outOpt : Option (List Char))
    (hr : fs.read ip = none) : cliMain fs ip outOpt = (1, .noOutput) := by
  rw [cliMain]
  by_cases hpe : fs.pathExists ip = false
  · rw [if_pos hpe]
  · rw [if_neg hpe, convert_image_to_base64, hr]
    rfl

lemma cliMain_console (fs : FS) (ip : List Char) (bytes : List Nat)
    (hpe : fs.pathExists ip = true) (hr : fs.read ip = some bytes) :
    cliMain fs ip none = (0, MainEffect.console
      (previewOf (dataUri (mimeOfPath ip) (b64encodeList bytes)))
      (dataUri (mimeOfPath ip) (b64encodeList bytes)).length) := by
  rw [cliMain, if_neg (by rw [hpe]; decide), convert_image_to_base64, hr]
  simp only [Option.map_some']
  rw [if_neg (dataUri_ne_nil _ _)]

lemma cliMain_write (fs : FS) (ip out : List Char) (bytes : List Nat)
    (hpe : fs.pathExists ip = true) (hr : fs.read ip = some bytes)
    (hw : fs.writeOk out = true) :
    cliMain fs ip (some out) = (0, MainEffect.wroteFile out
      (dataUri (mimeOfPath ip) (b64encodeList bytes))) := by
  rw [cliMain, if_neg (by rw [hpe]; decide), convert_image_to_base64, hr]
  simp only [Option.map_some']
  rw [if_neg (dataUri_ne_nil _ _)]
  rw [if_pos hw]

/-- C5: the CLI returns exit status 1 when the resource is missing or
unreadable; on success it returns exit status 0 and, with an output path
whose write succeeds, writes the uri string to that file, or, with no
output path, prints a truncated preview of the uri plus its total
length. -/
theorem C5_cli_behavior (fs : FS) (ip : List Char)
    (outOpt : Option (List Char)) :
    (fs.pathExists ip = false → cliMain fs ip outOpt = (1, .noOutput)) ∧
    (fs.read ip = none → cliMain fs ip outOpt = (1, .noOutput)) ∧
    (∀ bytes, fs.pathExists ip = true → fs.read ip = some bytes →
      (∀ out, fs.writeOk out = true →
        cliMain fs ip (some out) = (0, MainEffect.wroteFile out
          (dataUri (mimeOfPath ip) (b64encodeList bytes)))) ∧
      cliMain fs ip none = (0, MainEffect.console
        (previewOf (dataUri (mimeOfPath ip) (b64encodeList bytes)))
        (dataUri (mimeOfPath ip) (b64encodeList bytes)).length)) :=
  ⟨cliMain_not_exists fs ip outOpt,
   cliMain_read_none fs ip outOpt,
   fun bytes hpe hr =>
     ⟨fun out hw => cliMain_write fs ip out bytes hpe hr hw,
      cliMain_console fs ip bytes hpe hr⟩⟩

/-- C5 witness: a missing file exits with status 1; an existing one-byte
file with no output path exits with status 0 and prints the preview and
length. -/
theorem C5_cli_behavior_witness :
    cliMain ⟨fun _ => false, fun _ => none, fun _ => false⟩
      ("gone.png".toList) none = (1, .noOutput) ∧
    cliMain ⟨fun _ => true, fun _ => some [7], fun _ => true⟩
      ("x.png".toList) none = (0, MainEffect.console
        (previewOf (dataUri (mimeOfPath ("x.png".toList)) (b64encodeList [7])))
        (dataUri (mimeOfPath ("x.png".toList)) (b64encodeList [7])).length) :=
  ⟨(C5_cli_behavior _ _ none).1 rfl,
   ((C5_cli_behavior ⟨fun _ => true, fun _ => some [7], fun _ => true⟩
      ("x.png".toList) none).2.2 [7] rfl rfl).2⟩

/-- C6: every character of the encoder's payload belongs to the standard
64-character base64 alphabet or is the padding character `=`; in
particular the payload contains no newline.  (The encoder itself is a
total function on byte sequences: no input is rejected.) -/
theorem C6_payload_alphabet (bs : List Nat) (c : Char)
    (hc : c ∈ b64encodeList bs) :
    (c ∈ "ABCDEFGHIJKLMNOPQRSTUVWXYZabcdefghijklmnopqrstuvwxyz0123456789+/".toList
      ∨ c = '=') ∧ c ≠ '\n' := by
  have h := mem_b64encode bs c hc
  unfold b64Table at h
  refine ⟨h, fun he => ?_⟩
  rw [he] at h
  rcases h with h | h <;> revert h <;> decide

/-- C6 witness: concrete instantiation at the three-byte input `Man`. -/
theorem C6_payload_alphabet_witness :
    ('T' ∈ "ABCDEFGHIJKLMNOPQRSTUVWXYZabcdefghijklmnopqrstuvwxyz0123456789+/".toList
      ∨ 'T' = '=') ∧ 'T' ≠ '\n' :=
  C6_payload_alphabet [77, 97, 110] 'T' (by decide)

/-- C7: the encoder is deterministic and depends on no hidden state:
its result is a function of the path and of the bytes the file system
yields for that path, so two runs over states that agree on those bytes
return the identical uri (hence identical payload). -/
theorem C7_deterministic (r1 r2 : List Char → Option (List Nat))
    (path : List Char) (h : r1 path = r2 path) :
    convert_image_to_base64 r1 path = convert_image_to_base64 r2 path := by
  rw [convert_image_to_base64, convert_image_to_base64, h]

/-- C7 witness: two distinct file-system states agreeing at the path
give the identical result. -/
theorem C7_deterministic_witness :
    convert_image_to_base64 (fun _ => some [9]) ("a.png".toList) =
      convert_image_to_base64
        (fun p => if p = "a.png".toList then some [9] else none)
        ("a.png".toList) :=
  C7_deterministic _ _ _ (by decide)

/-- C8: the suffix-to-media-type mapping is case-insensitive: any two
paths that agree up to letter case are assigned the same media type. -/
theorem C8_case_insensitive (p q : List Char)
    (h : toLowerList p = toLowerList q) : mimeOfPath p = mimeOfPath q := by
  rw [mimeOfPath, mimeOfPath, toLower_splitext p q h]

/-- C8 witness: `IMAGE.PNG` and `image.png` get the same media type,
namely `image/png`. -/
theorem C8_case_insensitive_witness :
    mimeOfPath ("IMAGE.PNG".toList) = mimeOfPath ("image.png".toList) ∧
    mimeOfPath ("image.png".toList) = "image/png".toList :=
  ⟨C8_case_insensitive _ _ (by decide), by decide⟩

/-- C9: an existing readable empty file converts successfully to the uri
`data:<media-type>;base64,` with empty payload; the uri is a non-empty
string, so it passes the truthiness check in `main` and the CLI exits
with status 0. -/
theorem C9_empty_file (fs : FS) (path : List Char)
    (hpe : fs.pathExists path = true) (hr : fs.read path = some []) :
    convert_image_to_base64 fs.read path =
      some ("data:".toList ++ mimeOfPath path ++ ";base64,".toList) ∧
    dataUri (mimeOfPath path) [] ≠ [] ∧
    (cliMain fs path none).1 = 0 := by
  refine ⟨?_, dataUri_ne_nil _ _, ?_⟩
  · rw [convert_image_to_base64, hr]
    simp only [Option.map_some']
    rw [dataUri]
    simp [b64encodeList]
  · rw [cliMain_console fs path [] hpe hr]

/-- C9 witness: concrete empty `.png` file. -/
theorem C9_empty_file_witness :
    convert_image_to_base64
        (FS.read ⟨fun _ => true, fun _ => some [], fun _ => true⟩)
        ("empty.png".toList) =
      some ("data:".toList ++ mimeOfPath ("empty.png".toList) ++
        ";base64,".toList) ∧
    dataUri (mimeOfPath ("empty.png".toList)) [] ≠ [] ∧
    (cliMain ⟨fun _ => true, fun _ => some [], fun _ => true⟩
      ("empty.png".toList) none).1 = 0 :=
  C9_empty_file _ _ rfl rfl

/-- C10: a byte sequence of length `n` encodes to a payload of length
exactly `4 * ⌈n / 3⌉` (written `4 * ((n + 2) / 3)` in natural-number
division), and the uri length is the sum of the lengths of `data:`, the
media type, `;base64,` and the payload. -/
theorem C10_payload_length (bs : List Nat) :
    (b64encodeList bs).length = 4 * ((bs.length + 2) / 3) ∧
    (∀ read path bytes u, read path = some bytes →
      convert_image_to_base64 read path = some u →
      u.length = "data:".toList.length + (mimeOfPath path).length +
        ";base64,".toList.length + 4 * ((bytes.length + 2) / 3)) := by
  refine ⟨b64encode_length bs, fun read path bytes u hr hu => ?_⟩
  rw [convert_image_to_base64, hr] at hu
  simp only [Option.map_some'] at hu
  obtain rfl := Option.some_inj.mp hu
  simp only [dataUri, List.length_append, b64encode_length]

/-- C10 witness: one byte gives a four-character payload and the
corresponding uri length. -/
theorem C10_payload_length_witness :
    (b64encodeList [0]).length = 4 * ((([0] : List Nat).length + 2) / 3) ∧
    (dataUri (mimeOfPath ("a.png".toList)) (b64encodeList [0])).length =
      "data:".toList.length + (mimeOfPath ("a.png".toList)).length +
        ";base64,".toList.length + 4 * ((([0] : List Nat).length + 2) / 3) :=
  ⟨(C10_payload_length [0]).1,
   (C10_payload_length [0]).2 (fun _ => some [0]) ("a.png".toList) [0] _ rfl rfl⟩
